import Mathlib

/-!
Shallow embedding of `open_musiclm/hf_hubert_kmeans.py`.

The file wraps a pretrained HuBERT-style encoder and a fitted `MiniBatchKMeans`
codebook into a waveform-to-token pipeline (`HfHubertWithKmeans.forward`),
provides a factory for the unfitted clustering estimator (`get_kmeans_model`),
an offline fitting routine (`learn_kmeans`) and an assembly factory
(`get_hubert_kmeans`).

Modelling conventions:
* audio samples and embedding coordinates are real numbers (`ℝ`), standing for
  the exact-arithmetic meaning of the tensor operations;
* a waveform is a `List ℝ`, a batch is a list of waveforms; an embedding tensor
  is, per batch element, a list of frame vectors;
* external collaborators (the pretrained encoder, `torchaudio` resampling,
  `joblib` (de)serialization, the sklearn fit oracle) are passed in as explicit
  function parameters: they are black boxes outside this repository;
* fallible calls return `Except String`, where `Except.error` stands for a
  raised Python exception (an `AssertionError`, a `FileNotFoundError`, ...).
-/

namespace OpenMusicLM

/-- A single waveform: an ordered sequence of samples. -/
abbrev Wav := List ℝ

/-- A batch of waveforms. -/
abbrev Batch := List Wav

/-- A single embedding frame vector. -/
abbrev Frame := List ℝ

/-- Embedding tensor for a batch: per batch element, a sequence of frames. -/
abbrev EmbedT := List (List Frame)

/-- A fitted codebook: the centroid set of a fitted k-means model. -/
abbrev Codebook := List Frame

/-- The helper from the utilities module of this repository (the module is not
among the provided sources).  Modelled from the spec: every specified use site
treats it as presence of an optional value ("Raises if return-embeddings is
false and no codebook is loaded", "fails if sample rate is unspecified"), so it
is the test that an optional value is present. -/
def exists? {α : Type _} (x : Option α) : Bool := x.isSome

/-- Modelled from the spec: `curtail_to_multiple` from the utilities module of
this repository (not among the provided sources): the waveform is "truncated in
length so the sample count is an exact multiple of a configured frame-alignment
constant (discarding trailing remainder samples, never padding)". -/
def curtail_to_multiple (w : Wav) (mult : Nat) : Wav :=
  w.take (mult * (w.length / mult))

/-- Mean of a waveform along its sample dimension (`torch.mean(w, dim=-1)`). -/
noncomputable def mean (w : List ℝ) : ℝ := w.sum / w.length

/-- Unbiased sample variance, the square of `torch.std(w, dim=-1)` (PyTorch
defaults to the Bessel-corrected estimator).  For length 0 or 1 the numerator
is 0, so the value is 0 where PyTorch produces NaN; the NaN compares false
against 0 exactly as 0 does, so the branch taken downstream agrees. -/
noncomputable def var (w : List ℝ) : ℝ :=
  ((w.map fun x => (x - mean w) ^ 2).sum) / ((w.length : ℝ) - 1)

/-- Sample standard deviation `torch.std(w, dim=-1)`. -/
noncomputable def std (w : List ℝ) : ℝ := Real.sqrt (var w)

/-- Per-waveform normalization, lines 62-65 of `hf_hubert_kmeans.py`:
subtract the mean; rows whose standard deviation compares `> 0.` are
additionally divided by that standard deviation (the boolean mask
`non_zero_std`). -/
noncomputable def normalizeRow (w : Wav) : Wav :=
  let c := w.map fun x => x - mean w
  if 0 < std w then c.map fun x => x / std w else c

/-- Squared Euclidean distance between a centroid and a frame vector. -/
def sqDist (u v : List ℝ) : ℝ := (List.zipWith (fun a b => (a - b) ^ 2) u v).sum

/-- Tail of the nearest-centroid scan: `i` is the index of the next centroid,
`bi` the best index so far, `bd` its distance. -/
noncomputable def nearestIdxGo (f : Frame) : List Frame → Nat → Nat → ℝ → Nat
  | [], _, bi, _ => bi
  | c :: cs, i, bi, bd =>
    if sqDist c f < bd then nearestIdxGo f cs (i + 1) i (sqDist c f)
    else nearestIdxGo f cs (i + 1) bi bd

/-- Modelled from the spec: the predict call of the external clustering library on one
frame vector, which "assigns each frame vector to its nearest centroid (by the
codebook internal distance metric)".  Returns the index of the nearest
centroid (first wins on ties); 0 on an empty codebook (sklearn forbids
`n_clusters = 0`, so that case is degenerate). -/
noncomputable def nearestIdx (cb : Codebook) (f : Frame) : Nat :=
  match cb with
  | [] => 0
  | c :: cs => nearestIdxGo f cs 1 0 (sqDist c f)

/-- Modelled from the spec: `MiniBatchKMeans.predict` applied to the embedding
tensor, returning one integer cluster id per frame per batch element. -/
noncomputable def kmeans_predict (cb : Codebook) (e : EmbedT) : List (List Nat) :=
  e.map fun row => row.map fun f => nearestIdx cb f

/-- The pipeline object `HfHubertWithKmeans`: the pretrained encoder is the
black-box function from a (preprocessed) batch to the list of hidden states,
one embedding tensor per layer. -/
structure HfHubertWithKmeans where
  hubert : Batch → List EmbedT
  kmeans : Option Codebook
  embed_layer : Nat
  target_sample_hz : Nat
  seq_len_multiple_of : Option Nat

/-- Output of `HfHubertWithKmeans.forward`: an embedding tensor, a flattened
token tensor of shape `b t`, or an unflattened one of shape `b t 1`. -/
inductive ForwardOut where
  | embed (e : EmbedT)
  | toks (t : List (List Nat))
  | toksU (t : List (List (List Nat)))

/-- The message of the assertion on line 51 of `hf_hubert_kmeans.py`. -/
def assertMsg : String := "kmeans model must be provided if return_embed==False"

/-- The preprocessing stages of `forward` (lines 55-65): optional resampling
when an input sample rate is given, curtailing to the configured multiple when
one is configured, then per-waveform normalization.  `resample` is the external
`torchaudio.functional.resample`, a black box taking the original and target
sample rates. -/
noncomputable def preprocess (resample : Batch → Nat → Nat → Batch)
    (m : HfHubertWithKmeans) (wav_input : Batch) (input_sample_hz : Option Nat) :
    Batch :=
  let wav1 := match input_sample_hz with
    | some hz => resample wav_input hz m.target_sample_hz
    | none => wav_input
  let wav2 := match m.seq_len_multiple_of with
    | some mult => wav1.map fun w => curtail_to_multiple w mult
    | none => wav1
  wav2.map normalizeRow

/-- The hidden-layer embedding selected by `forward` (lines 72-73): the entry
`embed_layer` of the hidden states of the encoder on the preprocessed batch. -/
noncomputable def HfHubertWithKmeans.embedOf (resample : Batch → Nat → Nat → Batch)
    (m : HfHubertWithKmeans) (wav_input : Batch) (input_sample_hz : Option Nat) :
    EmbedT :=
  (m.hubert (preprocess resample m wav_input input_sample_hz)).getD m.embed_layer []

/-- `HfHubertWithKmeans.forward`.  The leading assertion raises when
`return_embed` is false and no kmeans model is loaded; otherwise the input is
preprocessed, encoded, and either the selected hidden layer is returned or the
codebook indices are, flattened (`b t`) or with a trailing singleton dimension
(`b t 1`).  The `match` arm for an absent kmeans after the assertion is
unreachable and kept as the same assertion error. -/
noncomputable def HfHubertWithKmeans.forward (resample : Batch → Nat → Nat → Batch)
    (m : HfHubertWithKmeans) (wav_input : Batch) (flatten : Bool)
    (return_embed : Bool) (input_sample_hz : Option Nat) :
    Except String ForwardOut :=
  if !(return_embed || exists? m.kmeans) then .error assertMsg
  else
    let embed := m.embedOf resample wav_input input_sample_hz
    if return_embed then .ok (.embed embed)
    else
      match m.kmeans with
      | none => .error assertMsg
      | some cb =>
        let codebook_indices := kmeans_predict cb embed
        if flatten then .ok (.toks codebook_indices)
        else .ok (.toksU (codebook_indices.map (List.map fun i => [i])))

/-- The unfitted `MiniBatchKMeans` estimator configuration. -/
structure MiniBatchKMeans where
  n_clusters : Nat
  init : String
  max_iter : Nat
  batch_size : Nat
  verbose : Nat
  compute_labels : Bool
  tol : ℚ
  max_no_improvement : Nat
  init_size : Option Nat
  n_init : Nat
  reassignment_ratio : ℚ
deriving DecidableEq

/-- `get_kmeans_model`: constructs a fresh, unfit clustering estimator with
`verbose=1`, `compute_labels=False`, `init_size=None` and the given
hyperparameters. -/
def get_kmeans_model (n_clusters : Nat) (init : String) (max_iter : Nat)
    (batch_size : Nat) (tol : ℚ) (max_no_improvement : Nat) (n_init : Nat)
    ( reassignment_ratio : ℚ) : MiniBatchKMeans :=
  { n_clusters := n_clusters
    init := init
    max_iter := max_iter
    batch_size := batch_size
    verbose := 1
    compute_labels := false
    tol := tol
    max_no_improvement := max_no_improvement
    init_size := none
    n_init := n_init
    reassignment_ratio := reassignment_ratio }

/-- The state of the NumPy global random source. -/
structure NpRandomState where
  state : Nat
deriving DecidableEq

/-- `np.random.seed(seed)`: overwrites the global random state with a state
derived from the seed alone; the previous state is discarded. -/
def np_random_seed (_prev : NpRandomState) (seed : Nat) : NpRandomState :=
  ⟨seed⟩

/-- A fitted k-means model: its centroid set. -/
structure FittedKMeans where
  cluster_centers : List Frame

/-- The embedding corpus fed to the offline fitting routine. -/
abbrev Corpus := List Frame

/-- Result of one run of `learn_kmeans`: the fitted model persisted by
`joblib.dump`, the path it is written to, and the printed inertia
diagnostic. -/
structure LearnResult where
  dumped : FittedKMeans
  km_path : String
  inertia : ℝ

/-- `learn_kmeans`: seeds the global random source, builds the estimator via
`get_kmeans_model`, fits it to the corpus through the external sklearn fit
oracle (a black box that is a function of the estimator configuration, the
global random state it consumes and the corpus), dumps the fitted model and
reports the mean per-sample inertia `-score/len(feat)`.  `fit` and `score` are
the external library calls; `rng0` is the global random state the process had
before the call. -/
noncomputable def learn_kmeans
    (fit : MiniBatchKMeans → NpRandomState → Corpus → FittedKMeans)
    (score : FittedKMeans → Corpus → ℝ) (rng0 : NpRandomState)
    (feat : Corpus) (seed : Nat) (km_path : String) (n_clusters : Nat)
    (init : String) (max_iter : Nat) (batch_size : Nat) (tol : ℚ)
    (n_init : Nat) ( reassignment_ratio : ℚ) (max_no_improvement : Nat) :
    LearnResult :=
  let rng := np_random_seed rng0 seed
  let km_model := get_kmeans_model n_clusters init max_iter batch_size tol
    max_no_improvement n_init reassignment_ratio
  let fitted := fit km_model rng feat
  { dumped := fitted
    km_path := km_path
    inertia := -(score fitted feat) / (feat.length : ℝ) }

/-- `joblib.load` on a path, over a snapshot of durable storage mapping paths
to the codebooks serialized there: loading a path with no file raises (a
`FileNotFoundError`), exactly as `joblib.load` does. -/
def joblib_load (store : String → Option Codebook) (path : String) :
    Except String Codebook :=
  match store path with
  | some cb => .ok cb
  | none => .error "FileNotFoundError"

/-- `get_hubert_kmeans`: loads the named pretrained encoder (the black box
`from_pretrained`), loads the codebook via `joblib.load` when a path is given
(`exists?` is the None-test, not a file-existence test), and assembles the
pipeline with the constructor defaults of `HfHubertWithKmeans.__init__`
(`embed_layer=7`, `target_sample_hz=16000`, `seq_len_multiple_of=320`). -/
def get_hubert_kmeans (from_pretrained : String → Batch → List EmbedT)
    (store : String → Option Codebook) (model_name : String)
    (kmeans_path : Option String) : Except String HfHubertWithKmeans := do
  let wav2vec := from_pretrained model_name
  let kmeans : Option Codebook ←
    if exists? kmeans_path then
      (joblib_load store (kmeans_path.getD "")).map some
    else pure none
  pure { hubert := wav2vec
         kmeans := kmeans
         embed_layer := 7
         target_sample_hz := 16000
         seq_len_multiple_of := some (16000 / 50) }

/-- The pipeline object assembled by `get_hubert_kmeans`: the named pretrained
encoder, the given optional codebook, and the constructor defaults of
`HfHubertWithKmeans.__init__`. -/
def assembledPipeline (fp : String → Batch → List EmbedT) (name : String)
    (kmeans : Option Codebook) : HfHubertWithKmeans :=
  { hubert := fp name
    kmeans := kmeans
    embed_layer := 7
    target_sample_hz := 16000
    seq_len_multiple_of := some (16000 / 50) }

/-! Concrete instances used by the witnesses below. -/

/-- A trivial stand-in for the external resampler: the identity. -/
def resample0 : Batch → Nat → Nat → Batch := fun w _ _ => w

/-- A second, different stand-in resampler. -/
def resample1 : Batch → Nat → Nat → Batch := fun _ _ _ => []

/-- A trivial stand-in encoder producing no hidden states. -/
def hubert0 : Batch → List EmbedT := fun _ => []

/-- A stand-in encoder with 8 hidden layers, whose layer 7 holds one frame
`[0]` for one batch element. -/
def hubert1 : Batch → List EmbedT := fun _ => List.replicate 8 [[[0]]]

/-- A concrete pipeline around `hubert1` with a one-centroid codebook. -/
def mW1 : HfHubertWithKmeans :=
  { hubert := hubert1
    kmeans := some [[0]]
    embed_layer := 7
    target_sample_hz := 16000
    seq_len_multiple_of := some 320 }

/-- A concrete pipeline with a one-centroid codebook loaded. -/
def mW : HfHubertWithKmeans :=
  { hubert := hubert0
    kmeans := some [[0]]
    embed_layer := 7
    target_sample_hz := 16000
    seq_len_multiple_of := some 320 }

/-- A snapshot of durable storage holding no files. -/
def store0 : String → Option Codebook := fun _ => none

/-- A snapshot of durable storage holding exactly one codebook file. -/
def store1 : String → Option Codebook :=
  fun p => if p = "./checkpoints/kmeans.joblib" then some [[0]] else none

/-- A trivial stand-in for `HubertModel.from_pretrained`. -/
def fp0 : String → Batch → List EmbedT := fun _ _ => []

/-! ### Theorems -/

/-- Normalization preserves the number of samples of a waveform. -/
theorem normalizeRow_length (w : Wav) : (normalizeRow w).length = w.length := by
  by_cases h : 0 < std w <;> simp [normalizeRow, h]

/-- Case-split form of `HfHubertWithKmeans.forward`. -/
theorem forward_eq (resample : Batch → Nat → Nat → Batch) (m : HfHubertWithKmeans)
    (wav : Batch) (fl re : Bool) (ish : Option Nat) :
    m.forward resample wav fl re ish =
      if re then .ok (.embed (m.embedOf resample wav ish))
      else
        match m.kmeans with
        | none => .error assertMsg
        | some cb =>
          if fl then .ok (.toks (kmeans_predict cb (m.embedOf resample wav ish)))
          else .ok (.toksU ((kmeans_predict cb (m.embedOf resample wav ish)).map
            (List.map fun i => [i]))) := by
  cases re <;> rcases hk : m.kmeans with _ | cb <;>
    simp [HfHubertWithKmeans.forward, exists?, hk]

/-- C5: the curtailing stage maps a waveform of length `n` to its prefix of
length `mult * (n / mult)` — the largest multiple of `mult` that is at most
`n`; the discarded remainder is exactly the trailing samples (no padding is
introduced); a length already a multiple is left unchanged; and the
normalization stage that follows does not change the length. -/
theorem curtail_to_multiple_spec (w : Wav) (mult : Nat) :
    (curtail_to_multiple w mult).length = mult * (w.length / mult) ∧
    curtail_to_multiple w mult ++ w.drop (mult * (w.length / mult)) = w ∧
    (mult ∣ w.length → curtail_to_multiple w mult = w) ∧
    (normalizeRow (curtail_to_multiple w mult)).length = mult * (w.length / mult) := by
  have hle : mult * (w.length / mult) ≤ w.length := Nat.mul_div_le w.length mult
  have hlen : (curtail_to_multiple w mult).length = mult * (w.length / mult) := by
    simpa [curtail_to_multiple] using hle
  refine ⟨hlen, List.take_append_drop _ _, ?_, ?_⟩
  · intro hdvd
    simp [curtail_to_multiple, Nat.mul_div_cancel' hdvd]
  · rw [normalizeRow_length, hlen]

/-- Witness for C5 at a concrete input: length 5 is curtailed to 4 with
alignment 2, and length 2 is left unchanged. -/
theorem curtail_to_multiple_spec_witness :
    (curtail_to_multiple ([1, 2, 3, 4, 5] : Wav) 2).length = 2 * (5 / 2) ∧
    (2 : Nat) ∣ ([1, 2] : Wav).length ∧
    curtail_to_multiple ([1, 2] : Wav) 2 = [1, 2] :=
  ⟨(curtail_to_multiple_spec [1, 2, 3, 4, 5] 2).1, by decide,
    (curtail_to_multiple_spec [1, 2] 2).2.2.1 (by decide)⟩

/-- C2: the inference forward raises (returns an error) exactly when
return-embeddings is false and no codebook is loaded; whenever a codebook is
present or return-embeddings is true the precondition check passes and a value
is returned. -/
theorem forward_error_iff (resample : Batch → Nat → Nat → Batch)
    (m : HfHubertWithKmeans) (wav : Batch) (fl re : Bool) (ish : Option Nat) :
    (∃ msg, m.forward resample wav fl re ish = Except.error msg) ↔
      re = false ∧ m.kmeans = none := by
  rw [forward_eq]
  cases re <;> rcases hk : m.kmeans with _ | cb <;> cases fl <;> simp [hk]

/-- C10: with return-embeddings=true the forward returns the selected
hidden-layer embedding tensor for every pipeline (codebook loaded or not) and
every flatten flag, and the flatten flag has no effect on the result. -/
theorem forward_return_embed (resample : Batch → Nat → Nat → Batch)
    (m : HfHubertWithKmeans) (wav : Batch) (fl : Bool) (ish : Option Nat) :
    m.forward resample wav fl true ish =
      Except.ok (ForwardOut.embed (m.embedOf resample wav ish)) ∧
    m.forward resample wav true true ish = m.forward resample wav false true ish := by
  constructor
  · rw [forward_eq]; simp
  · rw [forward_eq, forward_eq]; simp

/-- C7: with a loaded codebook, the flatten=false output is exactly the
flatten=true output with a trailing singleton dimension appended to every
token, with identical token values. -/
theorem forward_flatten_unflatten (resample : Batch → Nat → Nat → Batch)
    (m : HfHubertWithKmeans) (wav : Batch) (ish : Option Nat) (cb : Codebook)
    (h : m.kmeans = some cb) :
    m.forward resample wav true false ish =
      Except.ok (ForwardOut.toks (kmeans_predict cb (m.embedOf resample wav ish))) ∧
    m.forward resample wav false false ish =
      Except.ok (ForwardOut.toksU
        ((kmeans_predict cb (m.embedOf resample wav ish)).map (List.map fun i => [i]))) := by
  constructor <;> rw [forward_eq] <;> simp [h]

/-- Witness for C7 on a concrete pipeline with a loaded codebook. -/
theorem forward_flatten_unflatten_witness :
    mW.kmeans = some [[0]] ∧
    mW.forward resample0 [] true false none = Except.ok (ForwardOut.toks []) ∧
    mW.forward resample0 [] false false none = Except.ok (ForwardOut.toksU []) := by
  have h := forward_flatten_unflatten resample0 mW [] none [[0]] rfl
  refine ⟨rfl, ?_, ?_⟩
  · simpa [mW, hubert0, HfHubertWithKmeans.embedOf, preprocess, kmeans_predict] using h.1
  · simpa [mW, hubert0, HfHubertWithKmeans.embedOf, preprocess, kmeans_predict] using h.2

/-- C9: the offline fitting routine is independent of the global random state
the process had before the call — `np.random.seed(seed)` overwrites it — so
two runs on the same corpus with the same seed (and hyperparameters) produce
the identical fitted model, centroids included. -/
theorem learn_kmeans_deterministic
    (fit : MiniBatchKMeans → NpRandomState → Corpus → FittedKMeans)
    (score : FittedKMeans → Corpus → ℝ) (rng0 rng1 : NpRandomState)
    (feat : Corpus) (seed : Nat) (km_path : String) (n_clusters : Nat)
    (init : String) (max_iter : Nat) (batch_size : Nat) (tol : ℚ)
    (n_init : Nat) ( reassignment_ratio : ℚ) (max_no_improvement : Nat) :
    (learn_kmeans fit score rng0 feat seed km_path n_clusters init max_iter
        batch_size tol n_init reassignment_ratio max_no_improvement).dumped.cluster_centers =
      (learn_kmeans fit score rng1 feat seed km_path n_clusters init max_iter
        batch_size tol n_init reassignment_ratio max_no_improvement).dumped.cluster_centers ∧
    learn_kmeans fit score rng0 feat seed km_path n_clusters init max_iter
        batch_size tol n_init reassignment_ratio max_no_improvement =
      learn_kmeans fit score rng1 feat seed km_path n_clusters init max_iter
        batch_size tol n_init reassignment_ratio max_no_improvement :=
  ⟨rfl, rfl⟩

/-- C1 counterexample: with a codebook path that is given but names no file on
durable storage, the factory raises the file-not-found error of the loader instead
of returning a pipeline with quantization disabled. -/
theorem get_hubert_kmeans_missing_file_raises :
    get_hubert_kmeans fp0 store0 "m-a-p/MERT-v0" (some "./checkpoints/kmeans.joblib") =
      Except.error "FileNotFoundError" := rfl

/-- C1 amended: the factory disables quantization exactly when the path is not
given (None); when a path is given it deserializes the stored codebook,
raising when no file is present at that path. -/
theorem get_hubert_kmeans_spec (fp : String → Batch → List EmbedT)
    (store : String → Option Codebook) (name : String) (path : Option String) :
    (path = none → get_hubert_kmeans fp store name path =
      Except.ok (assembledPipeline fp name none)) ∧
    (∀ p cb, path = some p → store p = some cb →
      get_hubert_kmeans fp store name path =
        Except.ok (assembledPipeline fp name (some cb))) ∧
    (∀ p, path = some p → store p = none →
      get_hubert_kmeans fp store name path = Except.error "FileNotFoundError") := by
  refine ⟨?_, ?_, ?_⟩
  · rintro rfl; rfl
  · rintro p cb rfl hs
    simp [get_hubert_kmeans, exists?, joblib_load, hs, Except.map, assembledPipeline]
  · rintro p rfl hs
    simp [get_hubert_kmeans, exists?, joblib_load, hs, Except.map, assembledPipeline]

/-- Witness for the amended C1: a None path gives a pipeline without a
codebook; a present file is deserialized into the pipeline. -/
theorem get_hubert_kmeans_spec_witness :
    get_hubert_kmeans fp0 store0 "m-a-p/MERT-v0" none =
      Except.ok (assembledPipeline fp0 "m-a-p/MERT-v0" none) ∧
    get_hubert_kmeans fp0 store1 "m-a-p/MERT-v0" (some "./checkpoints/kmeans.joblib") =
      Except.ok (assembledPipeline fp0 "m-a-p/MERT-v0" (some [[0]])) :=
  ⟨(get_hubert_kmeans_spec fp0 store0 "m-a-p/MERT-v0" none).1 rfl,
    (get_hubert_kmeans_spec fp0 store1 "m-a-p/MERT-v0"
      (some "./checkpoints/kmeans.joblib")).2.1 "./checkpoints/kmeans.joblib" [[0]] rfl rfl⟩

/-- C4 counterexample: a call with the input sample rate unspecified proceeds
and returns a value; it does not fail. -/
theorem forward_no_sample_hz_proceeds :
    mW.forward resample0 [[1]] true true none = Except.ok (ForwardOut.embed []) := by
  rw [forward_eq]
  simp [mW, hubert0, HfHubertWithKmeans.embedOf]

/-- C4 amended: when the input sample rate is unspecified the resampling stage
is skipped — the result does not depend on the resampler at all — and the call
proceeds without error whenever the codebook precondition is met (the only
error path of the forward). -/
theorem forward_no_sample_hz (r r1 : Batch → Nat → Nat → Batch)
    (m : HfHubertWithKmeans) (wav : Batch) (fl re : Bool) :
    m.forward r wav fl re none = m.forward r1 wav fl re none ∧
    ((re = true ∨ m.kmeans.isSome = true) →
      ∃ v, m.forward r wav fl re none = Except.ok v) := by
  constructor
  · rfl
  · intro h
    rw [forward_eq]
    cases re
    · have hk : m.kmeans.isSome = true := by
        rcases h with h | h
        · exact absurd h (by simp)
        · exact h
      obtain ⟨cb, hcb⟩ := Option.isSome_iff_exists.mp hk
      cases fl <;> simp [hcb]
    · simp

/-- Witness for the amended C4: a concrete call with no sample rate gives the
same output under two different resamplers and returns a value. -/
theorem forward_no_sample_hz_witness :
    mW.forward resample0 [[1]] false false none = mW.forward resample1 [[1]] false false none ∧
    (false = true ∨ mW.kmeans.isSome = true) ∧
    (∃ v, mW.forward resample0 [[1]] false false none = Except.ok v) := by
  have h := forward_no_sample_hz resample0 resample1 mW [[1]] false false
  exact ⟨h.1, Or.inr rfl, h.2 (Or.inr rfl)⟩

/-! Elementary facts about `mean`, `var` and `std`. -/

theorem mean_def (l : List ℝ) : mean l = l.sum / (l.length : ℝ) := rfl

theorem sum_map_div (l : List ℝ) (f : ℝ → ℝ) (s : ℝ) :
    (l.map fun x => f x / s).sum = (l.map f).sum / s := by
  induction l with
  | nil => simp
  | cons a t ih => simp [ih, add_div]

theorem sum_map_sub_const (l : List ℝ) (c : ℝ) :
    (l.map fun x => x - c).sum = l.sum - l.length * c := by
  induction l with
  | nil => simp
  | cons a t ih =>
    simp only [List.map_cons, List.sum_cons, ih, List.length_cons]
    push_cast
    ring

theorem sum_map_sq_nonneg (l : List ℝ) (f : ℝ → ℝ) :
    0 ≤ (l.map fun x => f x ^ 2).sum := by
  induction l with
  | nil => simp
  | cons a t ih =>
    simp only [List.map_cons, List.sum_cons]
    exact add_nonneg (sq_nonneg _) ih

theorem eq_zero_of_sum_sq_eq_zero {l : List ℝ} {f : ℝ → ℝ}
    (h : (l.map fun x => f x ^ 2).sum = 0) : ∀ x ∈ l, f x = 0 := by
  induction l with
  | nil => simp
  | cons a t ih =>
    simp only [List.map_cons, List.sum_cons] at h
    have hge := sum_map_sq_nonneg t f
    have ha : f a ^ 2 = 0 := by nlinarith [sq_nonneg (f a)]
    have ht : (t.map fun x => f x ^ 2).sum = 0 := by nlinarith [sq_nonneg (f a)]
    intro x hx
    rcases List.mem_cons.mp hx with rfl | hx
    · exact (pow_eq_zero_iff two_ne_zero).mp ha
    · exact ih ht x hx

theorem var_nonneg (w : Wav) : 0 ≤ var w := by
  cases w with
  | nil => simp [var, mean]
  | cons a t =>
    apply div_nonneg
    · exact sum_map_sq_nonneg (a :: t) fun x => x - mean (a :: t)
    · have : ((a :: t).length : ℝ) - 1 = t.length := by
        simp [List.length_cons]
      rw [this]
      positivity

theorem std_eq_zero_iff (w : Wav) : std w = 0 ↔ var w = 0 := by
  unfold std
  exact Real.sqrt_eq_zero (var_nonneg w)

theorem std_pos_iff (w : Wav) : 0 < std w ↔ 0 < var w := by
  unfold std
  exact Real.sqrt_pos

theorem var_eq_zero_of_length_le_one (w : Wav) (h : w.length ≤ 1) : var w = 0 := by
  cases w with
  | nil => simp [var, mean]
  | cons a t =>
    cases t with
    | nil => simp [var, mean]
    | cons b t2 => simp [List.length_cons] at h

theorem two_le_length_of_var_pos (w : Wav) (h : 0 < var w) : 2 ≤ w.length := by
  by_contra hlt
  push_neg at hlt
  have : var w = 0 := var_eq_zero_of_length_le_one w (by omega)
  rw [this] at h
  exact lt_irrefl 0 h

theorem sum_eq_length_mul_mean (w : Wav) (h : w ≠ []) :
    w.sum = w.length * mean w := by
  have hlen : (w.length : ℝ) ≠ 0 := by
    have := List.length_pos.mpr h
    exact_mod_cast Nat.pos_iff_ne_zero.mp this
  field_simp [mean]

/-- C3: the per-waveform normalization of the forward pass only mean-centers a
waveform whose standard deviation is zero, and the result is then the all-zero
vector, with no division performed; a waveform with positive standard
deviation is centered and divided by its standard deviation. -/
theorem normalizeRow_zero_std (w : Wav) :
    (std w = 0 → normalizeRow w = List.replicate w.length (0 : ℝ)) ∧
    (0 < std w → normalizeRow w = w.map fun x => (x - mean w) / std w) := by
  constructor
  · intro h
    have hvar : var w = 0 := (std_eq_zero_iff w).mp h
    have hns : ¬ 0 < std w := by rw [h]; exact lt_irrefl 0
    have hbranch : normalizeRow w = w.map fun x => x - mean w := by
      simp [normalizeRow, hns]
    rw [hbranch]
    rcases Nat.lt_or_ge w.length 2 with hl | hl
    · cases w with
      | nil => simp
      | cons a t =>
        cases t with
        | nil => simp [mean]
        | cons b t2 =>
          simp [List.length_cons] at hl
          omega
    · have hden : ((w.length : ℝ) - 1) ≠ 0 := by
        have h2 : (2 : ℝ) ≤ (w.length : ℝ) := by exact_mod_cast hl
        linarith
      have hnum : ((w.map fun x => (x - mean w) ^ 2).sum) = 0 := by
        unfold var at hvar
        rcases div_eq_zero_iff.mp hvar with h0 | h0
        · exact h0
        · exact absurd h0 hden
      have hall : ∀ x ∈ w, x - mean w = 0 :=
        eq_zero_of_sum_sq_eq_zero (f := fun x => x - mean w) hnum
      refine List.eq_replicate_iff.mpr ⟨by simp, ?_⟩
      intro b hb
      obtain ⟨x, hx, rfl⟩ := List.mem_map.mp hb
      exact hall x hx
  · intro h
    simp [normalizeRow, h, List.map_map]

/-- Witness for C3: a constant waveform has zero standard deviation and is
normalized to the all-zero vector. -/
theorem normalizeRow_zero_std_witness :
    std ([3, 3] : Wav) = 0 ∧ normalizeRow ([3, 3] : Wav) = [0, 0] := by
  have hvar : var ([3, 3] : Wav) = 0 := by
    norm_num [var, mean]
  have hs : std ([3, 3] : Wav) = 0 := (std_eq_zero_iff [3, 3]).mpr hvar
  refine ⟨hs, ?_⟩
  have := (normalizeRow_zero_std [3, 3]).1 hs
  simpa using this

/-- C8: a waveform with positive variance is standardized by the normalization
stage of the forward: the output has sample mean exactly 0 and sample standard
deviation exactly 1 (in the exact real arithmetic of the model). -/
theorem normalizeRow_standardizes (w : Wav) (h : 0 < var w) :
    mean (normalizeRow w) = 0 ∧ std (normalizeRow w) = 1 := by
  have hs : 0 < std w := (std_pos_iff w).mpr h
  have hlen : 2 ≤ w.length := two_le_length_of_var_pos w h
  have hwne : w ≠ [] := by
    cases w
    · simp at hlen
    · simp
  have hden : ((w.length : ℝ) - 1) ≠ 0 := by
    have h2 : (2 : ℝ) ≤ (w.length : ℝ) := by exact_mod_cast hlen
    linarith
  have hform : normalizeRow w = w.map fun x => (x - mean w) / std w := by
    simp [normalizeRow, hs, List.map_map]
  have hsum0 : (w.map fun x => (x - mean w) / std w).sum = 0 := by
    rw [sum_map_div w (fun x => x - mean w) (std w), sum_map_sub_const,
      sum_eq_length_mul_mean w hwne]
    simp
  have hmean : mean (normalizeRow w) = 0 := by
    rw [hform, mean_def, hsum0, zero_div]
  refine ⟨hmean, ?_⟩
  have hnum : (w.map fun x => (x - mean w) ^ 2).sum = var w * ((w.length : ℝ) - 1) := by
    unfold var
    field_simp
  have hmean2 : mean (w.map fun x => (x - mean w) / std w) = 0 := by
    rw [← hform]
    exact hmean
  have hmap : (normalizeRow w).map (fun x => (x - mean (normalizeRow w)) ^ 2) =
      w.map fun x => (x - mean w) ^ 2 / std w ^ 2 := by
    rw [hform, hmean2, List.map_map]
    refine List.map_congr_left ?_
    intro x _
    simp [div_pow]
  have hvar1 : var (normalizeRow w) = 1 := by
    unfold var
    rw [hmap, normalizeRow_length, sum_map_div w (fun x => (x - mean w) ^ 2) (std w ^ 2),
      hnum]
    have hsq : std w ^ 2 = var w := Real.sq_sqrt (var_nonneg w)
    rw [hsq]
    field_simp
  unfold std
  rw [hvar1]
  exact Real.sqrt_one

/-- Witness for C8: the waveform `[0, 2]` has variance 2 and is standardized
to mean 0 and standard deviation 1. -/
theorem normalizeRow_standardizes_witness :
    0 < var ([0, 2] : Wav) ∧ mean (normalizeRow ([0, 2] : Wav)) = 0 ∧
      std (normalizeRow ([0, 2] : Wav)) = 1 := by
  have h : 0 < var ([0, 2] : Wav) := by
    norm_num [var, mean]
  exact ⟨h, (normalizeRow_standardizes [0, 2] h).1, (normalizeRow_standardizes [0, 2] h).2⟩

/-! Bounds on the nearest-centroid assignment. -/

theorem nearestIdxGo_lt (f : Frame) :
    ∀ (cs : List Frame) (i bi : Nat) (bd : ℝ), bi < i →
      nearestIdxGo f cs i bi bd < i + cs.length := by
  intro cs
  induction cs with
  | nil =>
    intro i bi bd hbi
    simpa [nearestIdxGo] using hbi
  | cons c t ih =>
    intro i bi bd hbi
    rw [nearestIdxGo]
    split
    · have := ih (i + 1) i (sqDist c f) (Nat.lt_succ_self i)
      simpa [List.length_cons, Nat.add_comm, Nat.add_left_comm] using this
    · have := ih (i + 1) bi bd (Nat.lt_succ_of_lt hbi)
      simpa [List.length_cons, Nat.add_comm, Nat.add_left_comm] using this

theorem nearestIdx_lt (cb : Codebook) (f : Frame) (h : cb ≠ []) :
    nearestIdx cb f < cb.length := by
  cases cb with
  | nil => exact absurd rfl h
  | cons c cs =>
    have := nearestIdxGo_lt f cs 1 0 (sqDist c f) Nat.zero_lt_one
    simpa [nearestIdx, List.length_cons, Nat.add_comm] using this

/-- Shape of the quantizer output: one id per frame per batch element, every
id below the centroid count. -/
theorem kmeans_predict_shape (cb : Codebook) (e : EmbedT) (h : cb ≠ []) :
    (kmeans_predict cb e).length = e.length ∧
    (∀ i, ((kmeans_predict cb e).getD i []).length = (e.getD i []).length) ∧
    (∀ row ∈ kmeans_predict cb e, ∀ t ∈ row, t < cb.length) := by
  refine ⟨by simp [kmeans_predict], ?_, ?_⟩
  · intro i
    induction e generalizing i with
    | nil => simp [kmeans_predict]
    | cons r rs ih =>
      cases i with
      | zero => simp [kmeans_predict]
      | succ j => simpa [kmeans_predict, List.getD] using ih j
  · intro row hrow t ht
    obtain ⟨r, _, rfl⟩ := List.mem_map.mp hrow
    obtain ⟨f, _, rfl⟩ := List.mem_map.mp ht
    exact nearestIdx_lt cb f h

/-- C6: an inference call on a pipeline with a loaded, nonempty codebook of
`K` centroids returns the token tensor quantizing the selected embedding
tensor; it has exactly one integer id per embedding frame — batch size and
every per-element frame count agree with the embedding tensor — and every id
lies in `[0, K)`. -/
theorem forward_token_shape (resample : Batch → Nat → Nat → Batch)
    (m : HfHubertWithKmeans) (wav : Batch) (ish : Option Nat) (cb : Codebook)
    (h : m.kmeans = some cb) (hcb : cb ≠ []) :
    m.forward resample wav true false ish =
      Except.ok (ForwardOut.toks (kmeans_predict cb (m.embedOf resample wav ish))) ∧
    (kmeans_predict cb (m.embedOf resample wav ish)).length =
      (m.embedOf resample wav ish).length ∧
    (∀ i, ((kmeans_predict cb (m.embedOf resample wav ish)).getD i []).length =
      ((m.embedOf resample wav ish).getD i []).length) ∧
    (∀ row ∈ kmeans_predict cb (m.embedOf resample wav ish), ∀ t ∈ row,
      t < cb.length) := by
  have hshape := kmeans_predict_shape cb (m.embedOf resample wav ish) hcb
  refine ⟨?_, hshape.1, hshape.2.1, hshape.2.2⟩
  rw [forward_eq]
  simp [h]

/-- Witness for C6: on a concrete pipeline whose encoder emits one frame at
layer 7 and whose codebook has one centroid, the call returns one token per
frame with id 0. -/
theorem forward_token_shape_witness :
    mW1.kmeans = some [[0]] ∧ ([[0]] : Codebook) ≠ [] ∧
    mW1.forward resample0 [[1, 2]] true false none =
      Except.ok (ForwardOut.toks [[0]]) := by
  have h := forward_token_shape resample0 mW1 [[1, 2]] none [[0]] rfl (by simp)
  refine ⟨rfl, by simp, ?_⟩
  simpa [mW1, hubert1, HfHubertWithKmeans.embedOf, preprocess, kmeans_predict,
    nearestIdx, nearestIdxGo] using h.1

end OpenMusicLM
